import Mathlib

/-!
Shallow embedding of `part-db-importer` (two Python scripts: `importer.py` and
`convert-lcsc-export.py`) and proofs about the behaviour its specification claims.

The embedding works over `List Char` / `String` and models:
  * Python `str.strip()` (`pyStripL`, restricted to the ASCII whitespace class),
  * CSS substring selectors `[href*=...]` (`containsL` / `containsS`),
  * the regexes `^C\d+$`, `/en/part/(\d+)/` and `Provider:\s*(.+)` used in the source,
  * Python `int()` (base 10, optional sign, underscores between digits),
  * `str.split(sep)` for the fixed separator `"->"` (`splitArrow`),
  * `csv.DictReader` rows as association lists whose values are `Option String`
    (`none` models the `None` rest-value a short row is padded with),
  * fallible browser interactions as `Except` values (an `error` is a raised
    exception at that interaction point).

Stateful loops (`import_parts`) are modelled by explicit state passing over a
`RunState` record mirroring the counters initialised in `LCSCImporter.__init__`.
-/

/-! ### Python-style character classes and trimming -/

/-- The ASCII whitespace class of Python's `str.strip()` and the regex class `\s`. -/
def pySpace (c : Char) : Bool :=
  c == ' ' || c == '\t' || c == '\n' || c == '\r' || c == '\x0b' || c == '\x0c'

/-- Python `str.strip()` on a list of characters. -/
def pyStripL (l : List Char) : List Char :=
  ((l.dropWhile pySpace).reverse.dropWhile pySpace).reverse

/-- Python `str.strip()` on a `String`. -/
def pyStripS (s : String) : String :=
  String.mk (pyStripL s.data)

/-- Substring test on character lists: does `pat` occur contiguously inside `l`?
This models the CSS attribute selector `[attr*=pat]` and Python's `in`. -/
def containsL : List Char → List Char → Bool
  | [], pat => pat.isEmpty
  | c :: t, pat => pat.isPrefixOf (c :: t) || containsL t pat

/-- Substring test on strings. -/
def containsS (s pat : String) : Bool :=
  containsL s.data pat.data

/-! ### Basic lemmas about `isPrefixOf` and `containsL` -/

theorem containsL_cons (c : Char) (t pat : List Char) :
    containsL (c :: t) pat = (pat.isPrefixOf (c :: t) || containsL t pat) := rfl

theorem isPrefixOf_nil_left (l : List Char) : List.isPrefixOf [] l = true := by
  cases l <;> rfl

theorem isPrefixOf_append_self (p t : List Char) : p.isPrefixOf (p ++ t) = true := by
  induction p with
  | nil => exact isPrefixOf_nil_left t
  | cons c cs ih => simp [List.isPrefixOf, ih]

theorem isPrefixOf_extend {p a : List Char} (b : List Char)
    (h : p.isPrefixOf a = true) : p.isPrefixOf (a ++ b) = true := by
  induction p generalizing a with
  | nil => exact isPrefixOf_nil_left (a ++ b)
  | cons c cs ih =>
    cases a with
    | nil => simp [List.isPrefixOf] at h
    | cons x xs =>
      simp only [List.isPrefixOf, Bool.and_eq_true] at h
      rw [List.cons_append, List.isPrefixOf, h.1, Bool.true_and]
      exact ih h.2

theorem containsL_of_tail {t : List Char} (c : Char) {pat : List Char}
    (h : containsL t pat = true) : containsL (c :: t) pat = true := by
  rw [containsL_cons, h, Bool.or_true]

theorem containsL_append_left {a : List Char} (b : List Char) {pat : List Char}
    (h : containsL a pat = true) : containsL (a ++ b) pat = true := by
  induction a with
  | nil =>
    have hp : pat = [] := by simpa [containsL] using h
    subst hp
    cases b with
    | nil => rfl
    | cons x xs => rw [List.nil_append, containsL_cons, isPrefixOf_nil_left, Bool.true_or]
  | cons x xs ih =>
    rw [containsL_cons, Bool.or_eq_true] at h
    rw [List.cons_append, containsL_cons, Bool.or_eq_true]
    rcases h with h | h
    · exact Or.inl (by simpa [List.cons_append] using isPrefixOf_extend b h)
    · exact Or.inr (ih h)

theorem containsL_append_right (a : List Char) {b pat : List Char}
    (h : containsL b pat = true) : containsL (a ++ b) pat = true := by
  induction a with
  | nil => simpa using h
  | cons x xs ih =>
    rw [List.cons_append]
    exact containsL_of_tail x ih

theorem containsL_self_append (p t : List Char) : containsL (p ++ t) p = true := by
  cases hp : p with
  | nil =>
    cases t with
    | nil => rfl
    | cons x xs => rw [List.nil_append, containsL_cons, isPrefixOf_nil_left, Bool.true_or]
  | cons c cs =>
    rw [List.cons_append, containsL_cons, ← List.cons_append, ← hp,
      isPrefixOf_append_self, Bool.true_or]

/-- A contiguous middle segment is found by `containsL`. -/
theorem containsL_middle (x y : List Char) {b pat : List Char}
    (h : containsL b pat = true) : containsL (x ++ b ++ y) pat = true := by
  have h1 : containsL (b ++ y) pat = true := containsL_append_left y h
  have h2 : containsL (x ++ (b ++ y)) pat = true := containsL_append_right x h1
  simpa [List.append_assoc] using h2

/-! ### Duplicate matcher: `LCSCImporter.check_part_exists`

The search result is a list of candidate part links; each candidate carries the
`href` of its `/en/part/<id>/info` link and the supplier links of its suppliers
page (an `Except`, since navigating there can raise inside the `try` block).
-/

/-- The literal `"/en/part/"` scanned for by the regex `/en/part/(\d+)/`. -/
def partMarker : List Char := ['/', 'e', 'n', '/', 'p', 'a', 'r', 't', '/']

/-- Model of `re.search(r'/en/part/(\d+)/', href)`: the first position where the literal
is followed by at least one digit and then a `'/'` yields the digit group. -/
def extractPartId : List Char → Option (List Char)
  | [] => none
  | c :: cs =>
    if partMarker.isPrefixOf (c :: cs) then
      let after := (c :: cs).drop partMarker.length
      let ds := after.takeWhile Char.isDigit
      match ds, after.drop ds.length with
      | _ :: _, '/' :: _ => some ds
      | _, _ => extractPartId cs
    else extractPartId cs

/-- One supplier-table anchor passes the locator
`a[href*="lcsc.com"][href*="{lcsc_id}"]` and the exact-text check
`link_text.strip() == lcsc_id` (importer.py lines 177-184). -/
def linkMatches (lcsc_id : String) (link : String × String) : Bool :=
  containsS link.1 "lcsc.com" && containsS link.1 lcsc_id &&
    (String.mk (pyStripL link.2.data) == lcsc_id)

/-- A candidate part link from the search results page: its `href` and the
outcome of fetching the supplier links of its info page. -/
structure Candidate where
  href : String
  suppliers : Except String (List (String × String))

/-- The `for link in part_links` loop of `check_part_exists`: candidates whose
href yields no part id are skipped; a raised exception while fetching a
candidate's suppliers page escapes the loop into the `except` handler (result
`false`); otherwise the candidate is accepted when one of its supplier links
matches exactly. -/
def supplierLoop (lcsc_id : String) : List Candidate → Bool
  | [] => false
  | c :: cs =>
    match extractPartId c.href.data with
    | none => supplierLoop lcsc_id cs
    | some _ =>
      match c.suppliers with
      | Except.error _ => false
      | Except.ok links =>
        if links.any (linkMatches lcsc_id) then true else supplierLoop lcsc_id cs

/-- Model of `LCSCImporter.check_part_exists`: a raised exception anywhere (searching, or
inside the candidate loop) is caught and reported as `false`; an empty result
list is `false`; otherwise the candidate loop decides. -/
def check_part_exists (lcsc_id : String)
    (searchResult : Except String (List Candidate)) : Bool :=
  match searchResult with
  | Except.error _ => false
  | Except.ok cands => supplierLoop lcsc_id cands

/-! ### Category text parser: `LCSCImporter.parse_lcsc_category`

`re.search(r'Provider:\s*(.+)', help_text)` is modelled by a left-to-right scan
for the literal `"Provider:"`; at a hit, `\s*` greedily eats whitespace
(newlines included) and `(.+)` captures the rest of that line.  When the whole
remaining text is whitespace, `\s*` backtracks and `(.+)` is left with a single
non-newline whitespace character if one exists, otherwise the scan continues.
-/

/-- The literal marker `"Provider:"`. -/
def providerMarker : List Char := ['P', 'r', 'o', 'v', 'i', 'd', 'e', 'r', ':']

/-- Attempt of `\s*(.+)` on the text following the marker (see module remark). -/
def matchAfter (t : List Char) : Option (List Char) :=
  match t.dropWhile pySpace with
  | r :: rs => some ((r :: rs).takeWhile (fun c => c != '\n'))
  | [] =>
    match t.reverse.find? (fun c => c != '\n') with
    | some c => some [c]
    | none => none

/-- Model of `re.search(r'Provider:\s*(.+)', ·)`: group 1 of the first successful match. -/
def searchProvider : List Char → Option (List Char)
  | [] => none
  | c :: cs =>
    if providerMarker.isPrefixOf (c :: cs) then
      match matchAfter ((c :: cs).drop providerMarker.length) with
      | some g => some g
      | none => searchProvider cs
    else searchProvider cs

/-- Python `category_text.split('->')` (all occurrences, empty pieces kept). -/
def splitArrow : List Char → List (List Char)
  | [] => [[]]
  | '-' :: '>' :: cs => [] :: splitArrow cs
  | c :: cs =>
    match splitArrow cs with
    | [] => [[c]]
    | g :: gs => (c :: g) :: gs

/-- Lines 205-210 of importer.py: split the stripped capture on `"->"`, strip
each piece; one piece gives `("", piece)`, otherwise `(first, last)`. -/
def categoryOfText (ct : List Char) : String × String :=
  let parts := (splitArrow ct).map pyStripL
  if parts.length = 1 then ("", String.mk (parts.headD []))
  else (String.mk (parts.headD []), String.mk (parts.getLastD []))

/-- Model of `LCSCImporter.parse_lcsc_category`. -/
def parse_lcsc_category (s : String) : String × String :=
  match searchProvider s.data with
  | none => ("", "")
  | some g => categoryOfText (pyStripL g)

/-- First occurrence of the literal marker; yields the text after it. -/
def findAfterMarker : List Char → Option (List Char)
  | [] => none
  | c :: cs =>
    if providerMarker.isPrefixOf (c :: cs) then
      some ((c :: cs).drop providerMarker.length)
    else findAfterMarker cs

/-- The amended reading of the spec's category-parser contract: if the marker is
absent the path is empty; otherwise whitespace (line breaks included) after the
marker is skipped, the remainder of that line is taken, stripped, split on
`"->"` with each piece stripped, and combined as `("", piece)` for one piece or
`(first, last)` otherwise. -/
def parseCategoryAmended (s : String) : String × String :=
  match findAfterMarker s.data with
  | none => ("", "")
  | some t =>
    categoryOfText (pyStripL ((t.dropWhile pySpace).takeWhile (fun c => c != '\n')))

/-! ### Request parser: `LCSCImporter.load_parts_csv`

Rows are the output of `csv.reader`: lists of field strings.
-/

/-- Model of `re.match(r'^C\d+$', ·)` on the stripped identifier. -/
def validLcscId : List Char → Bool
  | 'C' :: rest => !rest.isEmpty && rest.all Char.isDigit
  | _ => false

/-- Digit tail of Python `int()`: decimal digits with single underscores allowed
between digits only. -/
def digitsCore : Nat → List Char → Option Nat
  | acc, [] => some acc
  | acc, '_' :: c :: cs =>
    if c.isDigit then digitsCore (10 * acc + (c.toNat - 48)) cs else none
  | acc, c :: cs =>
    if c.isDigit then digitsCore (10 * acc + (c.toNat - 48)) cs else none

/-- Python `int(s)` in base 10: surrounding whitespace stripped, optional sign,
at least one digit, underscores only between digits; `none` is a `ValueError`. -/
def parseIntPy (l0 : List Char) : Option Int :=
  match pyStripL l0 with
  | '+' :: c :: cs =>
    if c.isDigit then (digitsCore (c.toNat - 48) cs).map Int.ofNat else none
  | '-' :: c :: cs =>
    if c.isDigit then (digitsCore (c.toNat - 48) cs).map (fun n => -(Int.ofNat n)) else none
  | c :: cs =>
    if c.isDigit then (digitsCore (c.toNat - 48) cs).map Int.ofNat else none
  | [] => none

/-- Validation of one `csv.reader` row (importer.py lines 117-134): exactly two
fields, stripped identifier matching `^C\d+$`, stripped amount accepted by
`int()`; any failure skips the row. -/
def processRow (row : List String) : Option (String × Int) :=
  match row with
  | [a, b] =>
    let lcsc_id := pyStripL a.data
    if validLcscId lcsc_id then
      (parseIntPy (pyStripL b.data)).map (fun n => (String.mk lcsc_id, n))
    else none
  | _ => none

/-- Model of `LCSCImporter.load_parts_csv`: the surviving `(lcsc_id, amount)` pairs in
row order. -/
def load_parts_csv : List (List String) → List (String × Int)
  | [] => []
  | r :: rs =>
    match processRow r with
    | some p => p :: load_parts_csv rs
    | none => load_parts_csv rs

/-! ### Field extractor: `extract_lcsc_and_quantity` (convert-lcsc-export.py)

A `csv.DictReader` row is an association list from header names to values;
a value of `none` is the `None` rest-value filled in for a row shorter than
the header.  `row.get(k, "")` returns the default only when the key is absent.
Calling `.strip()` on a `None` value raises, modelled by `Except.error ()`.
-/

/-- Model of `row.get(k, "")` on a `DictReader` row. -/
def getRowField (row : List (String × Option String)) (k : String) : Option String :=
  match row.find? (fun p => p.1 == k) with
  | none => some ""
  | some p => p.2

/-- Model of `extract_lcsc_and_quantity`: one output line per row whose two
named fields strip to non-empty strings; a `none` field value raises
(`AttributeError` on `None.strip()`). -/
def extract_lcsc_and_quantity :
    List (List (String × Option String)) → Except Unit (List String)
  | [] => Except.ok []
  | row :: rest =>
    match getRowField row "LCSC Part Number", getRowField row "Quantity" with
    | some l0, some q0 =>
      let lcsc := String.mk (pyStripL l0.data)
      let qty := String.mk (pyStripL q0.data)
      match extract_lcsc_and_quantity rest with
      | Except.ok lines =>
        Except.ok (if lcsc ≠ "" ∧ qty ≠ "" then (lcsc ++ "," ++ qty) :: lines else lines)
      | Except.error e => Except.error e
    | _, _ => Except.error ()

/-- A row of string-only field values (no short-row `None` padding). -/
def totalRow (row : List (String × String)) : List (String × Option String) :=
  row.map (fun p => (p.1, some p.2))

/-- Lookup on a string-only row. -/
def getRowFieldS (row : List (String × String)) (k : String) : String :=
  match row.find? (fun p => p.1 == k) with
  | none => ""
  | some p => p.2

/-- Both named fields of a string-only row strip to non-empty strings. -/
def goodRow (row : List (String × String)) : Bool :=
  !(pyStripL (getRowFieldS row "LCSC Part Number").data).isEmpty &&
    !(pyStripL (getRowFieldS row "Quantity").data).isEmpty

/-- The output line of a string-only row. -/
def lineOf (row : List (String × String)) : String :=
  String.mk (pyStripL (getRowFieldS row "LCSC Part Number").data) ++ "," ++
    String.mk (pyStripL (getRowFieldS row "Quantity").data)

/-! ### Run orchestrator: `LCSCImporter.import_parts` and `main` -/

/-- The mutable tallies set up in `LCSCImporter.__init__` (lines 62-65). -/
structure RunState where
  success_count : Nat
  fail_count : Nat
  skipped_count : Nat
  failed_parts : List String
deriving DecidableEq

/-- The counters right after `__init__`. -/
def initState : RunState := ⟨0, 0, 0, []⟩

/-- One iteration of the loop body of the importer (lines 383-390): any
status other than `"success"` and `"skipped"` counts as failed and records the
identifier. -/
def stepPart (st : RunState) (lcsc_id status : String) : RunState :=
  if status == "success" then { st with success_count := st.success_count + 1 }
  else if status == "skipped" then { st with skipped_count := st.skipped_count + 1 }
  else { st with fail_count := st.fail_count + 1,
                 failed_parts := st.failed_parts ++ [lcsc_id] }

/-- Model of `LCSCImporter.import_parts`: sequential loop over the parts, the status of
each part supplied by the collaborator `proc` (`process_single_part`). -/
def import_parts (proc : String × Int → String) (st : RunState) :
    List (String × Int) → RunState
  | [] => st
  | p :: ps => import_parts proc (stepPart st p.1 (proc p)) ps

/-- Sum of the three tallies. -/
def totalCount (st : RunState) : Nat :=
  st.success_count + st.skipped_count + st.fail_count

/-- Model of `main` after authentication (importer.py lines 458-464): load the
rows, abort with exit code 1 (`none`) when no valid part survived, otherwise
run the importing loop. -/
def mainRun (rows : List (List String)) (proc : String × Int → String) :
    Option RunState :=
  let parts := load_parts_csv rows
  if parts.isEmpty then none else some (import_parts proc initState parts)

/-! ### Proofs about the run orchestrator -/

/-- A status string that the loop tallies as failed. -/
def isFailStatus (s : String) : Bool := !(s == "success") && !(s == "skipped")

theorem isFailStatus_iff (s : String) :
    isFailStatus s = true ↔ s ≠ "success" ∧ s ≠ "skipped" := by
  simp [isFailStatus]

/-- Closed form of the import loop: each tally counts the requests with the
corresponding status, and the failed identifiers are appended in order. -/
theorem import_parts_closed_form (f : String × Int → String) :
    ∀ (parts : List (String × Int)) (st : RunState),
      import_parts f st parts =
        ⟨st.success_count + (parts.filter (fun p => f p == "success")).length,
         st.fail_count + (parts.filter (fun p => isFailStatus (f p))).length,
         st.skipped_count + (parts.filter (fun p => f p == "skipped")).length,
         st.failed_parts ++ (parts.filter (fun p => isFailStatus (f p))).map Prod.fst⟩ := by
  intro parts
  induction parts with
  | nil => intro st; simp [import_parts]
  | cons p ps ih =>
    intro st
    show import_parts f (stepPart st p.1 (f p)) ps = _
    rw [ih]
    cases h1 : (f p == "success") with
    | true =>
      have hs : f p = "success" := by simpa using h1
      simp [stepPart, h1, isFailStatus, hs, List.filter_cons, RunState.mk.injEq]
      omega
    | false =>
      cases h2 : (f p == "skipped") with
      | true =>
        have hs : f p = "skipped" := by simpa using h2
        simp [stepPart, h1, h2, isFailStatus, hs, List.filter_cons, RunState.mk.injEq]
        omega
      | false =>
        simp [stepPart, h1, h2, isFailStatus, List.filter_cons, RunState.mk.injEq]
        omega

theorem stepPart_total (st : RunState) (lcsc_id status : String) :
    totalCount (stepPart st lcsc_id status) = totalCount st + 1 := by
  unfold stepPart totalCount
  split
  · simp
    omega
  · split <;> simp <;> omega

theorem import_parts_total (f : String × Int → String) :
    ∀ (parts : List (String × Int)) (st : RunState),
      totalCount (import_parts f st parts) = totalCount st + parts.length := by
  intro parts
  induction parts with
  | nil => intro st; rfl
  | cons p ps ih =>
    intro st
    show totalCount (import_parts f (stepPart st p.1 (f p)) ps) = _
    rw [ih, stepPart_total]
    simp
    omega

/-- C8: a failure for one identifier does not abort the run.  The loop step is
the same equation whatever status comes back (processing always continues with
the remaining requests and never re-invokes the collaborator for the failed
one), every request contributes exactly one outcome to the tallies, and in the
concrete five-request run whose third request fails, all five are tallied: four
successes, one failure, and only `"C3"` in the failed list. -/
theorem C8_continue_on_failure :
    (∀ (f : String × Int → String) (st : RunState) (p : String × Int)
        (ps : List (String × Int)),
        import_parts f st (p :: ps) = import_parts f (stepPart st p.1 (f p)) ps)
    ∧ (∀ (f : String × Int → String) (st : RunState) (parts : List (String × Int)),
        totalCount (import_parts f st parts) = totalCount st + parts.length)
    ∧ import_parts (fun p => if p.1 == "C3" then "failed" else "success") initState
        [("C1", 1), ("C2", 2), ("C3", 3), ("C4", 4), ("C5", 5)] =
        ⟨4, 1, 0, ["C3"]⟩ := by
  refine ⟨fun f st p ps => rfl, fun f st parts => import_parts_total f parts st, ?_⟩
  decide

/-- C10: after any prefix of the requests the three tallies sum to the prefix
length, the failed list is as long as the failure tally, and an identifier is
in the failed list exactly when one of its requests came back with a status
other than `"success"` or `"skipped"`. -/
theorem C10_tally_invariants (f : String × Int → String)
    (parts : List (String × Int)) (k : Nat) :
    totalCount (import_parts f initState (parts.take k)) = (parts.take k).length
    ∧ (import_parts f initState (parts.take k)).failed_parts.length
        = (import_parts f initState (parts.take k)).fail_count
    ∧ ∀ id : String,
        id ∈ (import_parts f initState (parts.take k)).failed_parts
          ↔ ∃ p, p ∈ parts.take k ∧ p.1 = id ∧ f p ≠ "success" ∧ f p ≠ "skipped" := by
  refine ⟨?_, ?_, ?_⟩
  · rw [import_parts_total]
    simp [totalCount, initState]
  · rw [import_parts_closed_form]
    simp [initState]
  · intro id
    rw [import_parts_closed_form]
    simp only [initState, List.nil_append, List.mem_map, List.mem_filter]
    constructor
    · rintro ⟨p, ⟨hmem, hfail⟩, rfl⟩
      exact ⟨p, hmem, rfl, (isFailStatus_iff (f p)).mp hfail⟩
    · rintro ⟨p, hmem, rfl, hne⟩
      exact ⟨p, ⟨hmem, (isFailStatus_iff (f p)).mpr hne⟩, rfl⟩

/-- C9: after loading, the run aborts (exit 1, modelled `none`) exactly when no
valid request survived; any non-empty valid set proceeds to the import loop,
and the abort decision is taken independently of the collaborator. -/
theorem C9_empty_input_fatal (rows : List (List String))
    (proc : String × Int → String) :
    (mainRun rows proc = none ↔ load_parts_csv rows = [])
    ∧ (load_parts_csv rows ≠ [] →
        mainRun rows proc = some (import_parts proc initState (load_parts_csv rows)))
    ∧ (load_parts_csv rows = [] → ∀ g : String × Int → String, mainRun rows g = none) := by
  unfold mainRun
  refine ⟨?_, ?_, ?_⟩
  · cases h : load_parts_csv rows <;> simp [h]
  · intro h
    cases hl : load_parts_csv rows with
    | nil => exact absurd hl h
    | cons a as => simp [hl]
  · intro h g
    simp [h]

/-! ### Proofs about the request parser -/

theorem processRow_wrong_arity (row : List String) (h : row.length ≠ 2) :
    processRow row = none := by
  match row with
  | [] => rfl
  | [a] => rfl
  | [a, b] => exact absurd rfl h
  | a :: b :: c :: rest => rfl

theorem processRow_pair_isSome (a b : String) :
    (processRow [a, b]).isSome = true ↔
      validLcscId (pyStripL a.data) = true ∧ (parseIntPy (pyStripL b.data)).isSome = true := by
  unfold processRow
  cases hv : validLcscId (pyStripL a.data) <;> simp [hv]

theorem processRow_valid {r : List String} {p : String × Int}
    (h : processRow r = some p) : validLcscId p.1.data = true := by
  match r with
  | [] => exact absurd h (by simp [processRow])
  | [a] => exact absurd h (by simp [processRow])
  | a :: b :: c :: rest => exact absurd h (by simp [processRow])
  | [a, b] =>
    have h' : (if validLcscId (pyStripL a.data) = true
        then Option.map (fun n => (String.mk (pyStripL a.data), n))
          (parseIntPy (pyStripL b.data))
        else none) = some p := h
    cases hv : validLcscId (pyStripL a.data) with
    | false => rw [hv] at h'; simp at h'
    | true =>
      rw [hv] at h'
      simp only [if_true] at h'
      rcases Option.map_eq_some'.mp h' with ⟨n, _, hn⟩
      rw [← hn]
      exact hv

/-- C4: a `csv.reader` row yields a request exactly when it has two fields whose
stripped identifier matches `^C\d+$` and whose stripped amount is accepted by
`int()`; a failing row is dropped and the scan continues with the remaining
rows; the spec's four example rows behave as stated. -/
theorem C4_request_parse_rule :
    (∀ row : List String, row.length ≠ 2 → processRow row = none)
    ∧ (∀ a b : String,
        (processRow [a, b]).isSome = true ↔
          validLcscId (pyStripL a.data) = true
            ∧ (parseIntPy (pyStripL b.data)).isSome = true)
    ∧ (∀ (r : List String) (rs : List (List String)), processRow r = none →
        load_parts_csv (r :: rs) = load_parts_csv rs)
    ∧ (∀ (r : List String) (rs : List (List String)) (p : String × Int),
        processRow r = some p → load_parts_csv (r :: rs) = p :: load_parts_csv rs)
    ∧ load_parts_csv [["C12345", "10"]] = [("C12345", 10)]
    ∧ load_parts_csv [["12345", "10"]] = []
    ∧ load_parts_csv [["C12345", "abc"]] = []
    ∧ load_parts_csv [["C12345"]] = [] := by
  refine ⟨processRow_wrong_arity, processRow_pair_isSome, ?_, ?_, by decide, by decide,
    by decide, by decide⟩
  · intro r rs h
    simp only [load_parts_csv]
    rw [h]
  · intro r rs p h
    simp only [load_parts_csv]
    rw [h]

/-- Witness for C4 at the concrete dropped row `["C12345"]`. -/
theorem C4_request_parse_rule_witness :
    (["C12345"] : List String).length ≠ 2 ∧ processRow ["C12345"] = none :=
  ⟨by decide, C4_request_parse_rule.1 ["C12345"] (by decide)⟩

/-- C6 fails as stated: the row `["C1", "-5"]` is accepted and produces the
request `("C1", -5)` whose quantity is negative, because `int()` accepts a
leading minus sign. -/
theorem C6_counterexample :
    load_parts_csv [["C1", "-5"]] = [("C1", (-5 : Int))] ∧ (-5 : Int) < 0 := by
  constructor
  · decide
  · decide

/-- C6 as amended: every produced request has an identifier matching `C`
followed by one or more digits; its quantity is an integer that may be
negative. -/
theorem C6_request_invariant (rows : List (List String)) (p : String × Int)
    (h : p ∈ load_parts_csv rows) : validLcscId p.1.data = true := by
  induction rows with
  | nil => simp [load_parts_csv] at h
  | cons r rs ih =>
    unfold load_parts_csv at h
    cases hr : processRow r with
    | none =>
      rw [hr] at h
      exact ih h
    | some q =>
      rw [hr] at h
      rcases List.mem_cons.mp h with rfl | h2
      · exact processRow_valid hr
      · exact ih h2

/-- Witness for C6 at the concrete run over `[["C1", "-5"]]`. -/
theorem C6_request_invariant_witness :
    ("C1", (-5 : Int)) ∈ load_parts_csv [["C1", "-5"]]
      ∧ validLcscId ("C1" : String).data = true :=
  ⟨by decide, C6_request_invariant [["C1", "-5"]] ("C1", -5) (by decide)⟩

/-- Witness for C9 at a concrete all-invalid input. -/
theorem C9_empty_input_fatal_witness :
    load_parts_csv [["bad"]] = []
      ∧ mainRun [["bad"]] (fun _ => "success") = none :=
  ⟨by decide, (C9_empty_input_fatal [["bad"]] (fun _ => "success")).2.2 (by decide)
    (fun _ => "success")⟩

/-- Witness for C10 at the concrete five-request run with one failure. -/
theorem C10_tally_invariants_witness :
    "C3" ∈ (import_parts (fun p => if p.1 == "C3" then "failed" else "success")
        initState (([("C1", 1), ("C2", 2), ("C3", 3), ("C4", 4), ("C5", 5)] :
          List (String × Int)).take 5)).failed_parts
      ↔ ∃ p, p ∈ (([("C1", 1), ("C2", 2), ("C3", 3), ("C4", 4), ("C5", 5)] :
            List (String × Int)).take 5)
          ∧ p.1 = "C3"
          ∧ (if p.1 == "C3" then "failed" else "success") ≠ "success"
          ∧ (if p.1 == "C3" then "failed" else "success") ≠ "skipped" :=
  ((C10_tally_invariants (fun p => if p.1 == "C3" then "failed" else "success")
    [("C1", 1), ("C2", 2), ("C3", 3), ("C4", 4), ("C5", 5)] 5).2.2 "C3")

/-! ### Proofs about the duplicate matcher -/

theorem containsL_self (p : List Char) : containsL p p = true := by
  simpa using containsL_self_append p []

/-- C1: a supplier link displayed in the documented form
`<a href="https://www.lcsc.com/product-detail/<text>.html"><text></a>` is
accepted exactly when its displayed text equals the target identifier
(case-sensitive string equality); in particular the candidate displaying
`"C19915"` is rejected for target `"C1991"` even though its href passes the
substring filter, and the candidate displaying `"C1991"` is accepted. -/
theorem C1_exact_match_rule :
    (∀ lcsc_id text : String, pyStripL text.data = text.data →
      (linkMatches lcsc_id
          ("https://www.lcsc.com/product-detail/" ++ text ++ ".html", text) = true
        ↔ text = lcsc_id))
    ∧ check_part_exists "C1991" (Except.ok [⟨"/en/part/8/info",
        Except.ok [("https://www.lcsc.com/product-detail/C19915.html", "C19915")]⟩]) = false
    ∧ check_part_exists "C1991" (Except.ok [⟨"/en/part/8/info",
        Except.ok [("https://www.lcsc.com/product-detail/C1991.html", "C1991")]⟩]) = true := by
  refine ⟨?_, by decide, by decide⟩
  intro lcsc_id text hstrip
  have hdata : ("https://www.lcsc.com/product-detail/" ++ text ++ ".html").data
      = "https://www.lcsc.com/product-detail/".data ++ text.data ++ ".html".data := rfl
  constructor
  · intro h
    simp only [linkMatches, Bool.and_eq_true] at h
    have h3 := h.2
    rw [hstrip] at h3
    have : (text == lcsc_id) = true := h3
    exact beq_iff_eq.mp this
  · intro heq
    subst heq
    simp only [linkMatches, containsS, Bool.and_eq_true, hdata]
    refine ⟨⟨?_, ?_⟩, ?_⟩
    · exact containsL_append_left _
        (containsL_append_left _ (by decide : containsL
          ("https://www.lcsc.com/product-detail/" : String).data
          ("lcsc.com" : String).data = true))
    · exact containsL_middle _ _ (containsL_self text.data)
    · rw [hstrip]
      simp

/-- Witness for C1 at the exact-match example of the spec. -/
theorem C1_exact_match_rule_witness :
    pyStripL ("C1991" : String).data = ("C1991" : String).data
      ∧ (linkMatches "C1991"
          ("https://www.lcsc.com/product-detail/" ++ "C1991" ++ ".html", "C1991") = true
        ↔ ("C1991" : String) = "C1991") :=
  ⟨by decide, C1_exact_match_rule.1 "C1991" "C1991" (by decide)⟩

/-- C3: an error during the duplicate search is reported as "not found": a
raised search is `false`, and a raised supplier-page fetch on an examined
candidate makes the whole check `false` instead of propagating. -/
theorem C3_error_means_not_found :
    (∀ lcsc_id msg : String, check_part_exists lcsc_id (Except.error msg) = false)
    ∧ (∀ (lcsc_id msg href : String) (rest : List Candidate),
        (extractPartId href.data).isSome = true →
        check_part_exists lcsc_id
          (Except.ok (⟨href, Except.error msg⟩ :: rest)) = false) := by
  refine ⟨fun _ _ => rfl, ?_⟩
  intro lcsc_id msg href rest h
  rcases Option.isSome_iff_exists.mp h with ⟨v, hv⟩
  show supplierLoop lcsc_id (⟨href, Except.error msg⟩ :: rest) = false
  simp [supplierLoop, hv]

/-- Witness for C3 at a concrete timed-out supplier fetch. -/
theorem C3_error_means_not_found_witness :
    (extractPartId ("/en/part/8/info" : String).data).isSome = true
      ∧ check_part_exists "C1"
          (Except.ok [⟨"/en/part/8/info", Except.error "timeout"⟩]) = false :=
  ⟨by decide, C3_error_means_not_found.2 "C1" "timeout" "/en/part/8/info" [] (by decide)⟩

/-! ### Proofs about the field extractor -/

theorem getRowField_totalRow (row : List (String × String)) (k : String) :
    getRowField (totalRow row) k = some (getRowFieldS row k) := by
  induction row with
  | nil => rfl
  | cons p rest ih =>
    unfold getRowField getRowFieldS totalRow
    simp only [List.map_cons, List.find?_cons]
    cases hk : (p.1 == k) with
    | true => simp [hk]
    | false =>
      simp only [hk]
      exact ih

theorem mk_ne_empty_iff (l : List Char) : String.mk l ≠ "" ↔ l.isEmpty = false := by
  constructor
  · intro h
    cases l with
    | nil => exact absurd rfl h
    | cons c cs => rfl
  · intro h he
    cases l with
    | nil => simp at h
    | cons c cs => simp [String.ext_iff] at he

theorem extract_totalRows (rows : List (List (String × String))) :
    extract_lcsc_and_quantity (rows.map totalRow)
      = Except.ok ((rows.filter goodRow).map lineOf) := by
  induction rows with
  | nil => rfl
  | cons r rs ih =>
    rw [List.map_cons]
    unfold extract_lcsc_and_quantity
    rw [getRowField_totalRow, getRowField_totalRow, ih]
    simp only [List.filter_cons]
    cases hg : goodRow r with
    | true =>
      have hc : String.mk (pyStripL (getRowFieldS r "LCSC Part Number").data) ≠ ""
          ∧ String.mk (pyStripL (getRowFieldS r "Quantity").data) ≠ "" := by
        have := hg
        unfold goodRow at this
        rcases Bool.and_eq_true .. |>.mp this with ⟨h1, h2⟩
        exact ⟨(mk_ne_empty_iff _).mpr (by simpa using h1),
          (mk_ne_empty_iff _).mpr (by simpa using h2)⟩
      rw [if_pos hc]
      simp [lineOf]
    | false =>
      have hc : ¬(String.mk (pyStripL (getRowFieldS r "LCSC Part Number").data) ≠ ""
          ∧ String.mk (pyStripL (getRowFieldS r "Quantity").data) ≠ "") := by
        intro hcon
        have h1 := (mk_ne_empty_iff _).mp hcon.1
        have h2 := (mk_ne_empty_iff _).mp hcon.2
        have : goodRow r = true := by
          unfold goodRow
          rw [h1, h2]
          rfl
        rw [hg] at this
        cases this
      rw [if_neg hc]
      simp

/-- C7 fails as stated: a row shorter than the header leaves the named field
with the `None` rest-value, and `None.strip()` raises instead of silently
dropping the row. -/
theorem C7_counterexample :
    extract_lcsc_and_quantity [[("LCSC Part Number", some "C123"), ("Quantity", none)]]
      = Except.error () := rfl

/-- C7 as amended: for inputs whose rows carry string values for every header
column, the extractor emits exactly the rows whose two named fields strip to
non-blank strings, one line each, in input order, with no numeric validation
of the quantity; the line count equals the count of such rows.  (A row missing
a value for a named column raises instead of being dropped.) -/
theorem C7_field_extractor :
    (∀ rows : List (List (String × String)),
      extract_lcsc_and_quantity (rows.map totalRow)
        = Except.ok ((rows.filter goodRow).map lineOf))
    ∧ (∀ (rows : List (List (String × String))) (ls : List String),
        extract_lcsc_and_quantity (rows.map totalRow) = Except.ok ls →
          ls.length = (rows.filter goodRow).length)
    ∧ extract_lcsc_and_quantity
        [totalRow [("LCSC Part Number", " C9 "), ("Quantity", "abc")]]
        = Except.ok ["C9,abc"] := by
  refine ⟨extract_totalRows, ?_, by rfl⟩
  intro rows ls h
  have h2 : extract_lcsc_and_quantity (rows.map totalRow)
      = Except.ok ((rows.filter goodRow).map lineOf) := extract_totalRows rows
  rw [h] at h2
  have : ls = (rows.filter goodRow).map lineOf := by
    cases h2
    rfl
  rw [this, List.length_map]

/-- Witness for C7 at a concrete one-row input. -/
theorem C7_field_extractor_witness :
    extract_lcsc_and_quantity
        ([[("LCSC Part Number", " C9 "), ("Quantity", "abc")]].map totalRow)
      = Except.ok ["C9,abc"]
    ∧ (["C9,abc"] : List String).length
        = ([[("LCSC Part Number", " C9 "), ("Quantity", "abc")]].filter goodRow).length :=
  ⟨by rfl, C7_field_extractor.2.1 [[("LCSC Part Number", " C9 "), ("Quantity", "abc")]]
    ["C9,abc"] (by rfl)⟩

/-! ### Proofs about the category text parser -/

theorem searchProvider_cons (c : Char) (cs : List Char) :
    searchProvider (c :: cs) =
      (if providerMarker.isPrefixOf (c :: cs) then
        match matchAfter ((c :: cs).drop providerMarker.length) with
        | some g => some g
        | none => searchProvider cs
      else searchProvider cs) := rfl

theorem findAfterMarker_cons (c : Char) (cs : List Char) :
    findAfterMarker (c :: cs) =
      (if providerMarker.isPrefixOf (c :: cs) then
        some ((c :: cs).drop providerMarker.length)
      else findAfterMarker cs) := rfl

theorem isPrefixOf_decomp {p l : List Char} (h : p.isPrefixOf l = true) :
    l = p ++ l.drop p.length := by
  induction p generalizing l with
  | nil => simp
  | cons c cs ih =>
    cases l with
    | nil => simp [List.isPrefixOf] at h
    | cons x xs =>
      simp only [List.isPrefixOf, Bool.and_eq_true, beq_iff_eq] at h
      rw [h.1] at *
      have := ih h.2
      conv_lhs => rw [this]
      simp

theorem searchProvider_none_of_not_mem {l : List Char} (h : ('P' : Char) ∉ l) :
    searchProvider l = none := by
  induction l with
  | nil => rfl
  | cons c cs ih =>
    simp only [List.mem_cons, not_or] at h
    have hc : ('P' : Char) ≠ c := h.1
    have hpre : providerMarker.isPrefixOf (c :: cs) = false := by
      have hb : (('P' : Char) == c) = false := beq_eq_false_iff_ne.mpr hc
      show (('P' : Char) == c
        && List.isPrefixOf ['r', 'o', 'v', 'i', 'd', 'e', 'r', ':'] cs) = false
      rw [hb, Bool.false_and]
    rw [searchProvider_cons, hpre]
    simp only [Bool.false_eq_true, if_false]
    exact ih h.2

theorem findAfterMarker_isSome_eq (l : List Char) :
    (findAfterMarker l).isSome = containsL l providerMarker := by
  induction l with
  | nil => rfl
  | cons c cs ih =>
    rw [findAfterMarker_cons, containsL_cons]
    cases hpre : providerMarker.isPrefixOf (c :: cs) with
    | true => simp [hpre]
    | false => simp [hpre, ih]

/-- The separator `"->"` as a character list. -/
def arrowSep : List Char := ['-', '>']

theorem splitArrow_no_sep {l : List Char} (h : containsL l arrowSep = false) :
    splitArrow l = [l] := by
  induction l with
  | nil => rfl
  | cons c cs ih =>
    rw [containsL_cons, Bool.or_eq_false_iff] at h
    rw [splitArrow.eq_def]
    split
    · rename_i heq
      exact absurd heq (by simp)
    · rename_i cs' heq
      rw [List.cons.injEq] at heq
      rcases heq with ⟨hc, hcs⟩
      rw [hc, hcs] at h
      have : arrowSep.isPrefixOf ('-' :: '>' :: cs') = true := by
        show (('-' : Char) == '-' && (('>' : Char) == '>'
          && List.isPrefixOf [] cs')) = true
        rw [isPrefixOf_nil_left]
        rfl
      rw [this] at h
      exact absurd h.1 (by simp)
    · rename_i c0 cs0 hne heq
      rw [List.cons.injEq] at heq
      rcases heq with ⟨hc, hcs⟩
      rw [← hc, ← hcs, ih h.2]

theorem pyStripL_decomp (l : List Char) : ∃ x y, l = x ++ pyStripL l ++ y := by
  refine ⟨l.takeWhile pySpace,
    ((l.dropWhile pySpace).reverse.takeWhile pySpace).reverse, ?_⟩
  unfold pyStripL
  conv_lhs => rw [← List.takeWhile_append_dropWhile pySpace l]
  rw [List.append_assoc]
  congr 1
  rw [← List.reverse_append, List.takeWhile_append_dropWhile, List.reverse_reverse]

theorem containsL_false_of_middle {x y b pat : List Char}
    (h : containsL (x ++ b ++ y) pat = false) : containsL b pat = false := by
  cases hb : containsL b pat with
  | false => rfl
  | true => rw [containsL_middle x y hb] at h; cases h

theorem matchAfter_pos {t : List Char} {r : Char} {rs : List Char}
    (hdrop : t.dropWhile pySpace = r :: rs) :
    matchAfter t = some ((r :: rs).takeWhile (fun c => c != '\n')) := by
  unfold matchAfter
  rw [hdrop]

theorem matchAfter_ws_some {t : List Char} {w : Char}
    (hdrop : t.dropWhile pySpace = [])
    (hfind : t.reverse.find? (fun c => c != '\n') = some w) :
    matchAfter t = some [w] := by
  unfold matchAfter
  rw [hdrop, hfind]

theorem matchAfter_ws_none {t : List Char}
    (hdrop : t.dropWhile pySpace = [])
    (hfind : t.reverse.find? (fun c => c != '\n') = none) :
    matchAfter t = none := by
  unfold matchAfter
  rw [hdrop, hfind]

/-- Whatever `re.search(r'Provider:\s*(.+)', ·)` captures is a contiguous
segment of the searched text. -/
theorem searchProvider_some_segment :
    ∀ {l g : List Char}, searchProvider l = some g → ∃ x y, l = x ++ g ++ y := by
  intro l
  induction l with
  | nil => intro g h; cases h
  | cons c cs ih =>
    intro g h
    rw [searchProvider_cons] at h
    cases hpre : providerMarker.isPrefixOf (c :: cs) with
    | false =>
      rw [hpre] at h
      simp only [Bool.false_eq_true, if_false] at h
      rcases ih h with ⟨x, y, hxy⟩
      exact ⟨c :: x, y, by simp [hxy]⟩
    | true =>
      rw [hpre] at h
      simp only [if_true] at h
      have hdec : c :: cs = providerMarker ++ (c :: cs).drop providerMarker.length :=
        isPrefixOf_decomp hpre
      cases hdrop : ((c :: cs).drop providerMarker.length).dropWhile pySpace with
      | cons r rs =>
        rw [matchAfter_pos hdrop] at h
        have hg : g = (r :: rs).takeWhile (fun c => c != '\n') := by
          cases h; rfl
        have ht : (c :: cs).drop providerMarker.length
            = ((c :: cs).drop providerMarker.length).takeWhile pySpace ++ (r :: rs) := by
          rw [← hdrop, List.takeWhile_append_dropWhile]
        have hrr : r :: rs = g ++ (r :: rs).dropWhile (fun c => c != '\n') := by
          rw [hg]
          exact (List.takeWhile_append_dropWhile (fun c => c != '\n') (r :: rs)).symm
        refine ⟨providerMarker ++ ((c :: cs).drop providerMarker.length).takeWhile pySpace,
          (r :: rs).dropWhile (fun c => c != '\n'), ?_⟩
        conv_lhs => rw [hdec, ht, hrr]
        simp [List.append_assoc]
      | nil =>
        cases hfind : ((c :: cs).drop providerMarker.length).reverse.find?
            (fun c => c != '\n') with
        | some w =>
          rw [matchAfter_ws_some hdrop hfind] at h
          have hg : g = [w] := by cases h; rfl
          have hw : w ∈ (c :: cs).drop providerMarker.length := by
            have := List.mem_of_find?_eq_some hfind
            simpa using this
          rcases List.append_of_mem hw with ⟨u, v, huv⟩
          refine ⟨providerMarker ++ u, v, ?_⟩
          conv_lhs => rw [hdec]
          rw [huv, hg]
          simp
        | none =>
          rw [matchAfter_ws_none hdrop hfind] at h
          rcases ih h with ⟨x, y, hxy⟩
          exact ⟨c :: x, y, by simp [hxy]⟩

theorem pyStripL_single_ws {w : Char} (hw : pySpace w = true) : pyStripL [w] = [] := by
  unfold pyStripL
  rw [List.dropWhile_cons_of_pos hw]
  rfl

/-- The regex-based parse and the skip-whitespace-then-take-line description
compute the same category path on every character list. -/
theorem parseList_eq (l : List Char) :
    (match searchProvider l with
     | none => (("" : String), ("" : String))
     | some g => categoryOfText (pyStripL g)) =
    (match findAfterMarker l with
     | none => (("" : String), ("" : String))
     | some t =>
        categoryOfText
          (pyStripL ((t.dropWhile pySpace).takeWhile (fun c => c != '\n')))) := by
  induction l with
  | nil => rfl
  | cons c cs ih =>
    cases hpre : providerMarker.isPrefixOf (c :: cs) with
    | false =>
      have h1 : searchProvider (c :: cs) = searchProvider cs := by
        rw [searchProvider_cons, hpre]
        simp
      have h2 : findAfterMarker (c :: cs) = findAfterMarker cs := by
        rw [findAfterMarker_cons, hpre]
        simp
      rw [h1, h2]
      exact ih
    | true =>
      have h2 : findAfterMarker (c :: cs)
          = some ((c :: cs).drop providerMarker.length) := by
        rw [findAfterMarker_cons, hpre]
        simp
      rw [h2]
      cases hdrop : ((c :: cs).drop providerMarker.length).dropWhile pySpace with
      | cons r rs =>
        have h1 : searchProvider (c :: cs)
            = some ((r :: rs).takeWhile (fun c => c != '\n')) := by
          rw [searchProvider_cons, hpre]
          simp [matchAfter_pos hdrop]
        rw [h1]
        dsimp only
        rw [hdrop]
      | nil =>
        cases hfind : ((c :: cs).drop providerMarker.length).reverse.find?
            (fun c => c != '\n') with
        | some w =>
          have h1 : searchProvider (c :: cs) = some [w] := by
            rw [searchProvider_cons, hpre]
            simp [matchAfter_ws_some hdrop hfind]
          have hw : w ∈ (c :: cs).drop providerMarker.length := by
            have := List.mem_of_find?_eq_some hfind
            simpa using this
          have hws : pySpace w = true :=
            List.dropWhile_eq_nil_iff.mp hdrop w hw
          rw [h1]
          dsimp only
          rw [hdrop, pyStripL_single_ws hws]
          rfl
        | none =>
          have h1 : searchProvider (c :: cs) = searchProvider cs := by
            rw [searchProvider_cons, hpre]
            simp [matchAfter_ws_none hdrop hfind]
          have hnl : ∀ x ∈ (c :: cs).drop providerMarker.length, x = '\n' := by
            intro x hx
            have hfx := List.find?_eq_none.mp hfind x (by simpa using hx)
            simpa using hfx
          have hcs : cs = ['r', 'o', 'v', 'i', 'd', 'e', 'r', ':']
              ++ (c :: cs).drop providerMarker.length := by
            have hdec := isPrefixOf_decomp hpre
            rw [show providerMarker ++ (c :: cs).drop providerMarker.length
              = 'P' :: (['r', 'o', 'v', 'i', 'd', 'e', 'r', ':']
                ++ (c :: cs).drop providerMarker.length) from rfl] at hdec
            exact (List.cons.injEq .. |>.mp hdec).2
          have hnoP : ('P' : Char) ∉ cs := by
            rw [hcs]
            intro hmem
            rcases List.mem_append.mp hmem with hmm | hmm
            · exact absurd hmm (by decide)
            · exact absurd (hnl 'P' hmm) (by decide)
          rw [h1, searchProvider_none_of_not_mem hnoP]
          dsimp only
          rw [hdrop]
          rfl

theorem parse_eq_amended (s : String) :
    parse_lcsc_category s = parseCategoryAmended s :=
  parseList_eq s.data

theorem providerMarker_data : providerMarker = ("Provider:" : String).data := by
  decide

theorem mk_ne_empty_iff_ne (l : List Char) : String.mk l ≠ "" ↔ l ≠ [] := by
  cases l with
  | nil => simp
  | cons c cs => simp [String.ext_iff]

theorem categoryOfText_snd (ct : List Char) :
    (categoryOfText ct).2 = String.mk (((splitArrow ct).map pyStripL).getLastD []) := by
  simp only [categoryOfText]
  split
  · rename_i h
    rcases List.length_eq_one.mp h with ⟨a, ha⟩
    rw [ha]
    rfl
  · rfl

theorem categoryOfText_fst_single {ct : List Char}
    (h : containsL ct arrowSep = false) : (categoryOfText ct).1 = "" := by
  have hs : splitArrow ct = [ct] := splitArrow_no_sep h
  simp only [categoryOfText, hs]
  rfl

/-- C2 fails as stated on a help text whose captured remainder spans a line
break: the parser only keeps the first line after the marker. -/
theorem C2_counterexample :
    parse_lcsc_category "Provider: A\nB" = ("", "A")
      ∧ parse_lcsc_category "Provider: A\nB" ≠ ("", "A\nB") := by
  constructor
  · decide
  · decide

/-- C2 as amended: the parser behaves as claimed with the remainder read as
"skip whitespace (line breaks included) after the marker, then take the rest
of that line"; a text without the marker yields the empty path, and the
spec's three examples hold. -/
theorem C2_category_parse_rule :
    (∀ s : String, parse_lcsc_category s = parseCategoryAmended s)
    ∧ (∀ s : String, containsS s "Provider:" = false →
        parse_lcsc_category s = ("", ""))
    ∧ parse_lcsc_category "Provider: Circuit Protection -> Varistors, MOVs"
        = ("Circuit Protection", "Varistors, MOVs")
    ∧ parse_lcsc_category "Provider: Resistors" = ("", "Resistors")
    ∧ parse_lcsc_category "no marker here" = ("", "") := by
  refine ⟨parse_eq_amended, ?_, by decide, by decide, by decide⟩
  intro s h
  rw [parse_eq_amended]
  unfold parseCategoryAmended
  have hc : containsL s.data providerMarker = false := by
    rw [providerMarker_data]
    exact h
  cases hf : findAfterMarker s.data with
  | none => rfl
  | some t =>
    exfalso
    have hiso := findAfterMarker_isSome_eq s.data
    rw [hf, hc] at hiso
    simp at hiso

/-- Witness for C2 at the marker-free example. -/
theorem C2_category_parse_rule_witness :
    containsS "no marker here" "Provider:" = false
      ∧ parse_lcsc_category "no marker here" = ("", "") :=
  ⟨by decide, C2_category_parse_rule.2.1 "no marker here" (by decide)⟩

/-- C5 fails as stated: on `"Provider: x ->"` the marker is found and the
parse succeeds, yet the returned leaf is empty (the text ends with the
separator). -/
theorem C5_counterexample :
    parse_lcsc_category "Provider: x ->" = ("x", "")
      ∧ (searchProvider ("Provider: x ->" : String).data).isSome = true := by
  constructor
  · decide
  · decide

/-- C5 as amended: the parent is empty whenever the source text contains no
`"->"`; the leaf may be empty even when the marker is found — it is non-empty
exactly when the regex captures a group whose final stripped `"->"`-segment is
non-empty. -/
theorem C5_category_path_invariants (s : String) :
    (containsS s "->" = false → (parse_lcsc_category s).1 = "")
    ∧ ((parse_lcsc_category s).2 ≠ "" ↔
        ∃ g, searchProvider s.data = some g
          ∧ ((splitArrow (pyStripL g)).map pyStripL).getLastD [] ≠ []) := by
  constructor
  · intro h
    unfold parse_lcsc_category
    cases hsp : searchProvider s.data with
    | none => rfl
    | some g =>
      dsimp only
      apply categoryOfText_fst_single
      rcases searchProvider_some_segment hsp with ⟨x, y, hxy⟩
      rcases pyStripL_decomp g with ⟨u, v, huv⟩
      have hc : containsL s.data arrowSep = false := by
        have ha : arrowSep = ("->" : String).data := by decide
        rw [ha]
        exact h
      rw [hxy] at hc
      have hcg : containsL g arrowSep = false := containsL_false_of_middle hc
      rw [huv] at hcg
      exact containsL_false_of_middle hcg
  · unfold parse_lcsc_category
    cases hsp : searchProvider s.data with
    | none =>
      dsimp only
      constructor
      · intro h
        exact absurd rfl h
      · rintro ⟨g, hg, _⟩
        cases hg
    | some g =>
      dsimp only
      rw [categoryOfText_snd, mk_ne_empty_iff_ne]
      constructor
      · intro h
        exact ⟨g, rfl, h⟩
      · rintro ⟨g', hg', hne⟩
        have hgg : g' = g := (Option.some.injEq .. |>.mp hg'.symm)
        rw [← hgg]
        exact hne

/-- Witness for C5 at a concrete separator-free text. -/
theorem C5_category_path_invariants_witness :
    containsS "hello" "->" = false ∧ (parse_lcsc_category "hello").1 = "" :=
  ⟨by decide, (C5_category_path_invariants "hello").1 (by decide)⟩
